import Mathlib

/-!
Shallow embedding of the core order-engine, scheduler and minute-aggregation
logic of the `daijingfu_backtrader` repository.

Python floats are idealised as rationals (`ℚ`); Python ints as `ℤ`/`ℕ`.
Sources embedded here:
* `backend/jq_backtest/modules/s_1_strategy_compile/utils.py`
  (`round_to_price_tick`, `merge_position`, `position_snapshot`, `price_context`)
* `backend/jq_backtest/modules/s_1_strategy_compile/jq_api.py`
  (`order_value`, `order_target`, `order`, `order_target_value`,
   `order_target_percent`)
* `backend/jq_backtest/modules/s_3_backtest_engine/scheduler/matcher.py`
  (`should_trigger`) and `scheduler/executor.py` (`execute_pending_tasks`)
* `backend/backtest_origin/modules/s_2_data_loader/minute_cache.py`
  (`aggregate_minute_dataframe`)
-/

namespace Backtest

/-- `utils.round_to_price_tick`: round a price down to the nearest tick,
with the source's `+ 1e-9` epsilon; non-positive ticks return the price. -/
def round_to_price_tick (price tick : ℚ) : ℚ :=
  if tick ≤ 0 then price else (⌊price / tick + 1 / 1000000000⌋ : ℤ) * tick

/-- Modelled from the spec: `round_to_tick` is imported in `jq_api.py` from
`backend.modules.s_2_data_loader.data_compat`, a module that is not under
`src/`.  The spec says the limit prices are the previous close times the
limit factor "rounded to tick"; we model this as rounding to the nearest
tick (half away rounded up). -/
def round_to_tick (value tick : ℚ) : ℚ :=
  if tick ≤ 0 then value else (⌊value / tick + 1 / 2⌋ : ℤ) * tick

/-- Python `int()` applied to a float: truncation toward zero. -/
def pyInt (q : ℚ) : ℤ :=
  if q < 0 then ⌈q⌉ else ⌊q⌋

/-- The options dictionary `jq_state["options"]`, restricted to the keys the
order engine reads.  Defaults are the `options.get(...)` defaults. -/
structure Opts where
  /-- `options["fill_price"] == "close"` (any other value behaves as "open"). -/
  fill_close : Bool := false
  /-- `options.get("slippage_perc", 0.0)`. -/
  slippage_perc : ℚ := 0
  /-- `options.get("price_tick", 0.01)`; a stored `0` falls back via `or 0.01`. -/
  price_tick : ℚ := 1 / 100
  /-- `options.get("lot", 100)`; a stored `0` falls back via `or 100`. -/
  lot : ℕ := 100
  /-- `options.get("commission", 0.0003)`. -/
  commission : ℚ := 3 / 10000
  /-- `options.get("min_commission", 5.0)`. -/
  min_commission : ℚ := 5
  enable_limit_check : Bool := false
  /-- `options.get("limit_up_factor", 1.10)`; `0` falls back via `or 1.10`. -/
  limit_up_factor : ℚ := 11 / 10
  /-- `options.get("limit_down_factor", 0.90)`; `0` falls back via `or 0.90`. -/
  limit_down_factor : ℚ := 9 / 10
  jq_order_mode_strict : Bool := false
  debug_trading : Bool := false
  /-- `options.get("sizing_use_raw_open_price")`, defaulting to `True`. -/
  sizing_use_raw_open_price : Bool := true
  /-- `options.get("order_value_conservative_prev_close")`, defaulting to `False`. -/
  order_value_conservative_prev_close : Bool := false
  deriving Repr, DecidableEq

/-- Effective price tick, mirroring `float(options.get("price_tick", 0.01) or 0.01)`. -/
def Opts.tickEff (o : Opts) : ℚ := if o.price_tick = 0 then 1 / 100 else o.price_tick

/-- Effective lot, mirroring `int(options.get("lot", 100) or 100)`. -/
def Opts.lotEff (o : Opts) : ℕ := if o.lot = 0 then 100 else o.lot

/-- Effective up-limit factor, mirroring `float(options.get("limit_up_factor", 1.10) or 1.10)`. -/
def Opts.upFacEff (o : Opts) : ℚ := if o.limit_up_factor = 0 then 11 / 10 else o.limit_up_factor

/-- Effective down-limit factor, mirroring `float(options.get("limit_down_factor", 0.90) or 0.90)`. -/
def Opts.downFacEff (o : Opts) : ℚ := if o.limit_down_factor = 0 then 9 / 10 else o.limit_down_factor

inductive Side where
  | buy
  | sell
  deriving Repr, DecidableEq

inductive OrderStatus where
  | blockedLimitUp
  | blockedLimitDown
  deriving Repr, DecidableEq

/-- `OrderRecord` as constructed by `_block_order` in `jq_api.py` (the
`datetime` day token is modelled as a day number, the symbol is dropped:
the engine is single-instrument). -/
structure OrderRec where
  day : ℕ
  side : Side
  size : ℤ
  price : ℚ
  value : ℚ
  commission : ℚ
  status : OrderStatus
  deriving Repr, DecidableEq

/-- Log events, identified by their message tag in the source. -/
inductive LogEvent where
  /-- `[sizing_slip_mode] ...` (debug only). -/
  | sizing_slip_mode
  /-- `[limit_check] BLOCK side=...`. -/
  | limit_check_block (side : Side)
  /-- `[sizing_mode] ...` appended on the non-debug buy accept path. -/
  | sizing_mode
  /-- `[sizing] ...` debug messages. -/
  | sizing_debug
  /-- `[T+1_adjust] SELL clamp ...`. -/
  | t1_adjust_clamp
  /-- `[order_value_error] ...` from the catch-all handler. -/
  | order_value_error
  | order_error
  | order_target_error
  | order_target_value_error
  | order_target_percent_error
  deriving Repr, DecidableEq

/-- The slice of `jq_state` (plus broker/data-feed values) that the order
engine reads and writes.  `daily_bought` models the `_daily_bought`
dict (`day ↦ quantity bought that day`, missing keys read as 0). -/
structure EngState where
  opts : Opts := {}
  in_warmup : Bool := false
  /-- `broker.getcash()`. -/
  cash : ℚ := 0
  /-- `broker.getvalue()`. -/
  total_value : ℚ := 0
  /-- `strategy.position.size`. -/
  total_position : ℤ := 0
  /-- `jq_state["_daily_bought"]` as a total map with default 0. -/
  daily_bought : ℕ → ℤ := fun _ => 0
  /-- the day part of `jq_state["current_dt"]`. -/
  current_day : ℕ := 0
  /-- `data.open[0]` (current bar open). -/
  bar_open : ℚ := 0
  /-- `data.close[0]` (current bar close). -/
  bar_close : ℚ := 0
  /-- `safe_float(data.close[-1])` (previous bar close; `none` for NaN/missing). -/
  prev_close : Option ℚ := none
  blocked_orders : List OrderRec := []
  log : List LogEvent := []

def pushLog (st : EngState) (e : LogEvent) : EngState :=
  { st with log := st.log ++ [e] }

def pushBlocked (st : EngState) (r : OrderRec) : EngState :=
  { st with blocked_orders := st.blocked_orders ++ [r] }

/-- `utils.price_context`: choose the base price by fill mode, fail (raise)
on non-positive base, and compute slippage-adjusted execution prices.
The source rounds with `math.floor(price * 100) / 100` (buys) and
`math.ceil(price * 100) / 100` (sells), and skips rounding entirely when
`slip_perc` is falsy (zero). -/
structure PriceCtx where
  base_price : ℚ
  exec_buy_price : ℚ
  exec_sell_price : ℚ
  slippage_perc : ℚ
  deriving Repr, DecidableEq

def price_context (o : Opts) (bar_open bar_close : ℚ) : Option PriceCtx :=
  let base := if o.fill_close then bar_close else bar_open
  if base ≤ 0 then none
  else
    let slip := o.slippage_perc
    let half := slip / 2
    let exec_buy := if slip = 0 then base else ((⌊base * (1 + half) * 100⌋ : ℤ) : ℚ) / 100
    let exec_sell := if slip = 0 then base else ((⌈base * (1 - half) * 100⌉ : ℤ) : ℚ) / 100
    some ⟨base, exec_buy, exec_sell, slip⟩

/-- `utils.merge_position`: empty snapshot when the position size is zero,
otherwise `closeable = max(0, total - bought_today)` where `bought_today`
is the `_daily_bought` entry for the current day. -/
structure PosInfo where
  closeable_amount : ℤ
  total_amount : ℤ
  deriving Repr, DecidableEq

def merge_position (st : EngState) : Option PosInfo :=
  let total_amount := st.total_position
  if total_amount = 0 then none
  else
    let bought_today := st.daily_bought st.current_day
    some ⟨max 0 (total_amount - bought_today), total_amount⟩

/-- `utils.position_snapshot`: `(total, closeable)` for the (single)
instrument, with the final clamps `closeable ≤ total` and `closeable ≥ 0`. -/
def position_snapshot (st : EngState) : ℤ × ℤ :=
  match merge_position st with
  | none => (0, 0)
  | some info =>
      let total := info.total_amount
      let c0 := info.closeable_amount
      let c1 := if c0 > total then total else c0
      let c2 := if c1 < 0 then 0 else c1
      (total, c2)

/-- The closeable quantity reported by the snapshot. -/
def snapshot_closeable (st : EngState) : ℤ := (position_snapshot st).2

/-- Modelled from the spec: recording a buy fill is not under `src/` (only the
readers `merge_position` / `_Portfolio.positions` and the pruning of
`_daily_bought` are).  Per the spec, a buy fill adds the filled quantity to
the position total and to the today-bought rolling map entry of the
current trading day. -/
def record_buy (st : EngState) (qty : ℤ) : EngState :=
  { st with
    total_position := st.total_position + qty
    daily_bought := fun d =>
      if d = st.current_day then st.daily_bought d + qty else st.daily_bought d }

/-- An order handed to the Backtrader broker:
`strategy.buy(size=...)` / `strategy.sell(size=...)`. -/
inductive OrderAction where
  | buyOrder (size : ℤ)
  | sellOrder (size : ℤ)
  deriving Repr, DecidableEq

/-- The `1e-9` tolerance used by the limit-price comparisons. -/
def limitEps : ℚ := 1 / 1000000000

/-- The price-limit gate of `order_value` (`jq_api.py` lines 693-711):
when the check is enabled and the previous close is truthy and positive,
compute the limits with `round_to_tick` and block a buy (`value >= 0`)
at/above the up limit or a sell (`value < 0`) at/below the down limit,
within `1e-9`. -/
def limit_gate (o : Opts) (prev_close : Option ℚ) (exec_buy exec_sell value : ℚ) :
    Option (Side × ℚ × OrderStatus) :=
  if o.enable_limit_check then
    match prev_close with
    | some pc =>
        if 0 < pc then
          let tick := o.tickEff
          let up_lim := round_to_tick (pc * o.upFacEff) tick
          let down_lim := round_to_tick (pc * o.downFacEff) tick
          if 0 ≤ value ∧ up_lim - limitEps ≤ exec_buy then
            some (Side.buy, exec_buy, OrderStatus.blockedLimitUp)
          else if value < 0 ∧ exec_sell ≤ down_lim + limitEps then
            some (Side.sell, exec_sell, OrderStatus.blockedLimitDown)
          else none
        else none
    | none => none
  else none

/-- The blocked-order record appended by `_block_order` (size 0, value 0,
commission 0, the given status). -/
def mkBlockedRecord (day : ℕ) (side : Side) (price : ℚ) (status : OrderStatus) : OrderRec :=
  { day := day, side := side, size := 0, price := price, value := 0,
    commission := 0, status := status }

/-- The estimated total cost of `s` shares at price `p`:
`gross + max(gross * commission_rate, min_commission)`. -/
def est_cost (p rate minc : ℚ) (s : ℕ) : ℚ :=
  (s : ℚ) * p + max ((s : ℚ) * p * rate) minc

/-- Whether `s` shares are affordable
(the `max_cost <= available_cash` test of the sizing loop). -/
def affordable (cash p rate minc : ℚ) (s : ℕ) : Prop :=
  est_cost p rate minc s ≤ cash

instance (cash p rate minc : ℚ) (s : ℕ) : Decidable (affordable cash p rate minc s) := by
  unfold affordable; infer_instance

/-- The `while shares > 0: ... shares -= lot` decrement loop of the buy path,
written with explicit fuel (the loop runs at most `s` iterations since the
effective lot is ≥ 1; exhausted fuel returns 0, i.e. "no order"). -/
def shrink_shares (cash p rate minc : ℚ) (lot : ℕ) : ℕ → ℕ → ℕ
  | _, 0 => 0
  | 0, _ + 1 => 0
  | fuel + 1, s + 1 =>
      if affordable cash p rate minc (s + 1) then s + 1
      else shrink_shares cash p rate minc lot fuel (s + 1 - lot)

/-- The candidate buy share count (`jq_api.py` lines 723-740): floor the
value over the sizing price (the conservative previous close when that
option is on), then round down to a lot multiple. -/
def buy_candidate_shares (o : Opts) (ctx : PriceCtx) (prev_close : Option ℚ) (value : ℚ) : ℕ :=
  let sizing_price := if o.sizing_use_raw_open_price then ctx.base_price else ctx.exec_buy_price
  let conservative_price :=
    match prev_close with
    | some pc =>
        if o.order_value_conservative_prev_close ∧ pc ≠ 0 ∧ sizing_price < pc then pc
        else sizing_price
    | none => sizing_price
  let raw_shares : ℤ :=
    ⌊value / (if o.order_value_conservative_prev_close then conservative_price else sizing_price)⌋
  raw_shares.toNat / o.lotEff * o.lotEff

/-- The buy direction of `order_value` (`jq_api.py` lines 722-783), entered
after the limit gate with `value > 0`.  `st` already carries the debug
`[sizing_slip_mode]` log when `debug_trading` is set. -/
def order_value_buy (st : EngState) (ctx : PriceCtx) (value : ℚ) :
    EngState × Option OrderAction :=
  let o := st.opts
  let shares := buy_candidate_shares o ctx st.prev_close value
  if shares = 0 then (if o.debug_trading then pushLog st LogEvent.sizing_debug else st, none)
  else
    -- both alternatives of the source's fee-price selection equal the buy
    -- execution price (`gross_price_for_fee = exec_price_for_cost if ... else
    -- exec_buy_price` with `exec_price_for_cost = exec_buy_price`)
    let gross_price_for_fee := ctx.exec_buy_price
    let loop_taken := st.cash < est_cost gross_price_for_fee o.commission o.min_commission shares
    let final_shares :=
      if loop_taken then
        shrink_shares st.cash gross_price_for_fee o.commission o.min_commission o.lotEff
          shares shares
      else shares
    if loop_taken ∧ final_shares = 0 then
      (if o.debug_trading then pushLog st LogEvent.sizing_debug else st, none)
    else
      let st1 :=
        pushLog st (if o.debug_trading then LogEvent.sizing_debug else LogEvent.sizing_mode)
      if 0 < final_shares then (st1, some (OrderAction.buyOrder (final_shares : ℤ)))
      else (st1, none)

/-- `max_sell_shares` of the sell path: the closeable amount when positive. -/
def sell_max_shares (closeable : ℤ) : ℤ := if 0 < closeable then closeable else 0

/-- The lot-rounded share count implied by the requested sell value. -/
def sell_tentative (lot : ℤ) (sizing_price value_abs : ℚ) : ℤ :=
  let raw_need : ℤ := if 0 < sizing_price then ⌊value_abs / sizing_price⌋ else 0
  if 0 < raw_need then raw_need / lot * lot else 0

/-- `shares = min(max_sell_shares, tentative if tentative > 0 else max_sell_shares)`. -/
def sell_shares0 (max_sell tentative : ℤ) : ℤ :=
  min max_sell (if 0 < tentative then tentative else max_sell)

/-- The sell direction of `order_value` (`jq_api.py` lines 785-821), entered
after the limit gate with `value < 0`. -/
def order_value_sell (st : EngState) (ctx : PriceCtx) (closeable_position : ℤ) (value : ℚ) :
    EngState × Option OrderAction :=
  let o := st.opts
  let lot : ℤ := (o.lotEff : ℤ)
  let value_abs := -value
  let max_sell_shares := sell_max_shares closeable_position
  if max_sell_shares ≤ 0 then (st, none)
  else
    let sizing_price := if o.sizing_use_raw_open_price then ctx.base_price else ctx.exec_sell_price
    let tentative := sell_tentative lot sizing_price value_abs
    let shares0 := sell_shares0 max_sell_shares tentative
    if shares0 ≤ 0 ∧ sizing_price * (lot : ℚ) ≤ value_abs ∧ o.jq_order_mode_strict then (st, none)
    else
      let shares : ℤ := if shares0 ≤ 0 then max_sell_shares else shares0
      if shares ≤ 0 then (if o.debug_trading then pushLog st LogEvent.sizing_debug else st, none)
      else
        let st1 := if shares < max_sell_shares then pushLog st LogEvent.t1_adjust_clamp else st
        let st2 := if o.debug_trading then pushLog st1 LogEvent.sizing_debug else st1
        (st2, some (OrderAction.sellOrder shares))

/-- `jq_api.order_value`: warmup guard, price context (a failure there is the
caught-and-logged exception path), debug log, limit gate, then the buy/sell
sizing path by the sign of `value`. -/
def order_value (st : EngState) (value : ℚ) : EngState × Option OrderAction :=
  if st.in_warmup then (st, none)
  else
    match price_context st.opts st.bar_open st.bar_close with
    | none => (pushLog st LogEvent.order_value_error, none)
    | some ctx =>
        let snap := position_snapshot st
        let st1 := if st.opts.debug_trading then pushLog st LogEvent.sizing_slip_mode else st
        match limit_gate st.opts st.prev_close ctx.exec_buy_price ctx.exec_sell_price value with
        | some (side, price, status) =>
            (pushBlocked (pushLog st1 (LogEvent.limit_check_block side))
              (mkBlockedRecord st1.current_day side price status), none)
        | none =>
            if 0 < value then order_value_buy st1 ctx value
            else if value < 0 then order_value_sell st1 ctx snap.2 value
            else (st1, none)

/-- `order_target`'s lot rounding of the truncated target:
`tgt = sign(tgt_raw) * ((|tgt_raw| // lot) * lot)`. -/
def target_lot_rounded (lot : ℤ) (target : ℚ) : ℤ :=
  let tgt_raw : ℤ := pyInt target
  let tgt0 : ℤ := (tgt_raw.natAbs : ℤ) / lot * lot
  if 0 ≤ tgt_raw then tgt0 else -tgt0

/-- `order_target`'s sell size: the needed amount clamped to the closeable
maximum, re-rounded to the lot when it is neither a lot multiple nor the
whole closeable position. -/
def target_sell_size (lot max_sell sell_needed : ℤ) : ℤ :=
  let sell_size0 : ℤ := min max_sell sell_needed
  if sell_size0 % lot ≠ 0 ∧ sell_size0 ≠ max_sell then
    let s := sell_size0 / lot * lot
    if s ≤ 0 ∧ 0 < max_sell then max_sell else s
  else sell_size0

/-- `jq_api.order_target`: lot-round the (truncated) target, compute the
delta versus the current total position, apply the limit gate on the delta
sign (`delta > 0` buys are gated exactly like `value ≥ 0` ones since
`delta = 0` returned earlier), then buy the delta or sell bounded by the
closeable amount. -/
def order_target (st : EngState) (target : ℚ) : EngState × Option OrderAction :=
  if st.in_warmup then (st, none)
  else
    match price_context st.opts st.bar_open st.bar_close with
    | none => (pushLog st LogEvent.order_target_error, none)
    | some ctx =>
        let snap := position_snapshot st
        let o := st.opts
        let lot : ℤ := (o.lotEff : ℤ)
        let delta := target_lot_rounded lot target - snap.1
        if delta = 0 then (st, none)
        else
          match limit_gate o st.prev_close ctx.exec_buy_price ctx.exec_sell_price (delta : ℚ) with
          | some (side, price, status) =>
              (pushBlocked (pushLog st (LogEvent.limit_check_block side))
                (mkBlockedRecord st.current_day side price status), none)
          | none =>
              if 0 < delta then (st, some (OrderAction.buyOrder delta))
              else
                let sell_needed := -delta
                let max_sell := sell_max_shares snap.2
                if max_sell ≤ 0 then (st, none)
                else
                  let sell_size := target_sell_size lot max_sell sell_needed
                  if sell_size ≤ 0 then (st, none)
                  else
                    let st1 :=
                      if sell_size < sell_needed then pushLog st LogEvent.t1_adjust_clamp else st
                    (st1, some (OrderAction.sellOrder sell_size))

/-- `jq_api.order`: convert a signed share amount to a cash value at the base
price and delegate to `order_value`. -/
def order (st : EngState) (amount : ℤ) : EngState × Option OrderAction :=
  if st.in_warmup then (st, none)
  else
    match price_context st.opts st.bar_open st.bar_close with
    | none => (pushLog st LogEvent.order_error, none)
    | some ctx =>
        if 0 < amount then order_value st ((amount : ℚ) * ctx.base_price)
        else if amount < 0 then order_value st ((amount : ℚ) * ctx.base_price)
        else (st, none)

/-- `jq_api.order_target_value`: clamp the target value at 0, lot-round the
implied target share count, and delegate to `order_target`. -/
def order_target_value (st : EngState) (value : ℚ) : EngState × Option OrderAction :=
  if st.in_warmup then (st, none)
  else
    match price_context st.opts st.bar_open st.bar_close with
    | none => (pushLog st LogEvent.order_target_value_error, none)
    | some ctx =>
        let o := st.opts
        let lot : ℤ := (o.lotEff : ℤ)
        let target_value := if value < 0 then 0 else value
        let price_for_size :=
          if o.sizing_use_raw_open_price then ctx.base_price
          else max ctx.exec_buy_price ctx.base_price
        if price_for_size ≤ 0 then (st, none)
        else
          let raw_target : ℤ := ⌊target_value / price_for_size⌋
          let raw_target : ℤ := if raw_target < 0 then 0 else raw_target
          let target_shares : ℤ := raw_target / lot * lot
          order_target st (target_shares : ℚ)

/-- `jq_api.order_target_percent`: convert the portfolio fraction to a target
value via `broker.getvalue()` and delegate to `order_target_value`. -/
def order_target_percent (st : EngState) (percent : ℚ) : EngState × Option OrderAction :=
  if st.in_warmup then (st, none)
  else
    let total_value := st.total_value
    if total_value ≤ 0 then (st, none)
    else order_target_value st (total_value * percent)

/-! ### Task scheduler (`scheduler/matcher.py`, `scheduler/executor.py`) -/

/-- A parsed `current_dt` timestamp.  `weekday` carries Python's
`datetime.weekday()` (0 = Monday), computed by the standard library from
the date. -/
structure Ts where
  year : ℕ
  month : ℕ
  day : ℕ
  hour : ℕ
  minute : ℕ
  weekday : ℕ
  deriving Repr, DecidableEq

inductive Freq where
  | daily
  | weekly
  | monthly
  deriving Repr, DecidableEq

/-- A scheduler task dict: registered time-of-day, frequency, the
`last_trigger` timestamp, and the callback identified by an id. -/
structure Task where
  time_hour : ℕ
  time_minute : ℕ
  freq : Freq
  last_trigger : Option Ts
  cb : ℕ
  deriving Repr, DecidableEq

/-- `matcher.should_trigger`: (hour, minute) must match, then the frequency
predicate (daily: always; weekly: Monday; monthly: calendar day 1). -/
def should_trigger (ts : Ts) (task : Task) : Bool :=
  if ts.hour ≠ task.time_hour ∨ ts.minute ≠ task.time_minute then false
  else
    match task.freq with
    | Freq.daily => true
    | Freq.weekly => ts.weekday = 0
    | Freq.monthly => ts.day = 1

/-- One iteration of the `execute_pending_tasks` loop for a single task.
`ok task.cb = true` models a callback invocation that returns normally,
`false` one that raises (the exception is caught and logged).  Returns the
updated task and whether the callback was invoked.  Note the source sets
`task['last_trigger'] = current_dt` after the call, inside the `try`, so a
raising callback leaves `last_trigger` unchanged. -/
def run_task (ok : ℕ → Bool) (ts : Ts) (task : Task) : Task × Bool :=
  if should_trigger ts task ∧ task.last_trigger ≠ some ts then
    if ok task.cb then ({ task with last_trigger := some ts }, true)
    else (task, true)
  else (task, false)

/-- `executor.execute_pending_tasks`: run every task against the current
timestamp; per-task failures do not affect the other tasks.  Returns the
updated task list and the per-task invocation flags. -/
def execute_pending_tasks (ok : ℕ → Bool) (ts : Ts) (tasks : List Task) :
    List Task × List Bool :=
  (tasks.map (fun t => (run_task ok ts t).1), tasks.map (fun t => (run_task ok ts t).2))

/-! ### Minute→daily aggregation (`minute_cache.aggregate_minute_dataframe`) -/

/-- One minute bar row, already carrying the calendar-date part of its
parsed `datetime` (rows whose datetime fails to parse are dropped by the
source before grouping and are not modelled). -/
structure MinuteRow where
  /-- the calendar date (`working["datetime"].dt.date`), as a day ordinal. -/
  date : ℕ
  /-- the `open` column. -/
  opn : ℚ
  high : ℚ
  low : ℚ
  /-- the `close` column. -/
  cls : ℚ
  volume : ℚ
  amount : ℚ
  deriving Repr, DecidableEq

/-- One aggregated daily bar. -/
structure DailyRow where
  date : ℕ
  opn : ℚ
  high : ℚ
  low : ℚ
  cls : ℚ
  volume : ℚ
  amount : ℚ
  deriving Repr, DecidableEq

/-- Aggregate one day's group of minute rows (pandas `agg` with
open=first, close=last, high=max, low=min, volume/amount=sum; groups are
never empty, the defaults for `[]` are unreachable). -/
def aggGroup (d : ℕ) (grp : List MinuteRow) : DailyRow :=
  match grp with
  | [] => { date := d, opn := 0, high := 0, low := 0, cls := 0, volume := 0, amount := 0 }
  | r :: rs =>
      { date := d
        opn := r.opn
        high := rs.foldl (fun a x => max a x.high) r.high
        low := rs.foldl (fun a x => min a x.low) r.low
        cls := (rs.getLastD r).cls
        volume := (grp.map (fun x => x.volume)).sum
        amount := (grp.map (fun x => x.amount)).sum }

/-- `aggregate_minute_dataframe`: group the rows by calendar date
(`groupby("date")`, whose keys pandas sorts ascending — the final
`sort_values("datetime")` orders the output by date either way) and
aggregate each group. -/
def aggregate_minute_dataframe (rows : List MinuteRow) : List DailyRow :=
  let dates := ((rows.map (fun r => r.date)).dedup).mergeSort (fun a b => a ≤ b)
  dates.map (fun d => aggGroup d (rows.filter (fun r => r.date = d)))

/-- Helper for evaluating ceilings numerically (rewrites them to floors). -/
theorem ceil_as_floor (a : ℚ) : (⌈a⌉ : ℤ) = -⌊-a⌋ := by
  rw [Int.floor_neg, neg_neg]

/-! ### Spec-side definitions (for refinement comparisons) -/

/-- The spec's description of the buy execution price: base price increased
by half the slippage fraction and rounded down to the nearest price tick. -/
def spec_exec_buy_price (base slip tick : ℚ) : ℚ :=
  ((⌊base * (1 + slip / 2) / tick⌋ : ℤ) : ℚ) * tick

/-- The spec's description of the sell execution price: base price decreased
by half the slippage fraction and rounded up to the nearest price tick. -/
def spec_exec_sell_price (base slip tick : ℚ) : ℚ :=
  ((⌈base * (1 - slip / 2) / tick⌉ : ℤ) : ℚ) * tick

/-- The size carried by an order action. -/
def OrderAction.size : OrderAction → ℤ
  | OrderAction.buyOrder s => s
  | OrderAction.sellOrder s => s

/-! ### Claim C10: order intents are no-ops during warmup -/

/-- C10: every order intent (`order`, `order_value`, `order_target`,
`order_target_value`, `order_target_percent`) invoked while `in_warmup` is
set returns no order and leaves the whole engine state — ledger,
blocked-order log, message log — unchanged. -/
theorem warmup_is_noop (st : EngState) (h : st.in_warmup = true) :
    (∀ v, order_value st v = (st, none)) ∧
    (∀ n, order st n = (st, none)) ∧
    (∀ t, order_target st t = (st, none)) ∧
    (∀ v, order_target_value st v = (st, none)) ∧
    (∀ p, order_target_percent st p = (st, none)) := by
  refine ⟨fun v => ?_, fun n => ?_, fun t => ?_, fun v => ?_, fun p => ?_⟩ <;>
    simp [order_value, order, order_target, order_target_value, order_target_percent, h]

def warmup_st : EngState :=
  { in_warmup := true, cash := 100000, bar_open := 10, bar_close := 10, total_position := 300 }

/-- C10 witness: the warmup no-op at a concrete state. -/
theorem warmup_is_noop_witness :
    warmup_st.in_warmup = true ∧
    order_value warmup_st 80000 = (warmup_st, none) ∧
    order warmup_st 3 = (warmup_st, none) ∧
    order_target warmup_st 100 = (warmup_st, none) ∧
    order_target_value warmup_st 50 = (warmup_st, none) ∧
    order_target_percent warmup_st 1 = (warmup_st, none) :=
  ⟨rfl, (warmup_is_noop warmup_st rfl).1 80000, (warmup_is_noop warmup_st rfl).2.1 3,
    (warmup_is_noop warmup_st rfl).2.2.1 100, (warmup_is_noop warmup_st rfl).2.2.2.1 50,
    (warmup_is_noop warmup_st rfl).2.2.2.2 1⟩

/-! ### Claim C7: scheduler firing condition -/

def c7_task : Task :=
  { time_hour := 9, time_minute := 30, freq := Freq.daily, last_trigger := none, cb := 0 }

def c7_ts : Ts := { year := 2024, month := 5, day := 7, hour := 9, minute := 30, weekday := 1 }

/-- C7 counterexample: a daily task registered at 09:30 whose callback
raises is invoked by a 09:30 tick and invoked AGAIN by a second tick
carrying the very same timestamp (the failed invocation leaves
`last_trigger` at `none`) — refuting the claim's unconditional "fires
exactly once per simulated day even if the tick is evaluated multiple times
with the same timestamp". -/
theorem daily_task_refires_after_failed_callback :
    (run_task (fun _ => false) c7_ts c7_task).2 = true ∧
    (run_task (fun _ => false) c7_ts c7_task).1.last_trigger ≠ some c7_ts ∧
    (run_task (fun _ => false) c7_ts (run_task (fun _ => false) c7_ts c7_task).1).2 = true := by
  decide

/-- C7 amended: a task is invoked by a tick iff its (hour, minute) matches,
its frequency predicate holds (daily: always; weekly: Monday; monthly:
calendar day 1), and its `last_trigger` differs from the current timestamp;
hence a daily task registered at 09:30 whose callback invocation SUCCEEDS
fires exactly once per timestamp even if the tick is evaluated multiple
times with the same timestamp (when the callback raises it can be invoked
again, see the counterexample). -/
theorem scheduler_fires_iff (ok : ℕ → Bool) (ts : Ts) (task : Task) :
    ((run_task ok ts task).2 = true ↔
      (should_trigger ts task = true ∧ task.last_trigger ≠ some ts)) ∧
    (should_trigger ts task = true ↔
      (ts.hour = task.time_hour ∧ ts.minute = task.time_minute ∧
        match task.freq with
        | Freq.daily => True
        | Freq.weekly => ts.weekday = 0
        | Freq.monthly => ts.day = 1)) ∧
    (ok task.cb = true → (run_task ok ts task).2 = true →
      (run_task ok ts (run_task ok ts task).1).2 = false) := by
  refine ⟨?_, ?_, ?_⟩
  · unfold run_task
    split_ifs <;> simp_all
  · unfold should_trigger
    cases task.freq
    all_goals split_ifs with h
    all_goals simp_all
    all_goals tauto
  · intro hok hfired
    unfold run_task at hfired ⊢
    split_ifs at hfired
    all_goals simp_all

/-- C7 witness: a daily task registered at 09:30 is invoked at a 09:30 tick,
and (with a succeeding callback) not invoked again at the same timestamp. -/
theorem scheduler_fires_iff_witness :
    (run_task (fun _ => true) c7_ts c7_task).2 = true ∧
    (run_task (fun _ => true) c7_ts (run_task (fun _ => true) c7_ts c7_task).1).2 = false := by
  have h := scheduler_fires_iff (fun _ => true) c7_ts c7_task
  have hfired : (run_task (fun _ => true) c7_ts c7_task).2 = true :=
    h.1.mpr ⟨by decide, by decide⟩
  exact ⟨hfired, h.2.2 rfl hfired⟩

/-! ### Claim C3: `last_trigger` under callback failure -/

def c3_task : Task :=
  { time_hour := 9, time_minute := 30, freq := Freq.daily, last_trigger := none, cb := 0 }

def c3_ts : Ts := { year := 2024, month := 5, day := 7, hour := 9, minute := 30, weekday := 1 }

/-- C3 counterexample: with a raising callback the task is invoked, its
`last_trigger` is NOT set to the current timestamp (it stays `none`), and a
second tick at the very same timestamp invokes it again — refuting the claim
that `last_trigger` is updated whether the callback succeeds or raises. -/
theorem failed_callback_leaves_last_trigger :
    (run_task (fun _ => false) c3_ts c3_task).2 = true ∧
    (run_task (fun _ => false) c3_ts c3_task).1.last_trigger = none ∧
    (run_task (fun _ => false) c3_ts (run_task (fun _ => false) c3_ts c3_task).1).2 = true := by
  decide

/-- C3 amended: `last_trigger` is set to the current timestamp only when the
callback invocation succeeds; when the callback raises, the task is left
unchanged (the error is only logged), so it can be invoked again at the same
timestamp. -/
theorem last_trigger_set_only_on_success (ok : ℕ → Bool) (ts : Ts) (task : Task) :
    ((run_task ok ts task).2 = true → ok task.cb = true →
      (run_task ok ts task).1.last_trigger = some ts) ∧
    (ok task.cb = false → (run_task ok ts task).1 = task) ∧
    ((run_task ok ts task).2 = true → ok task.cb = false →
      (run_task ok ts (run_task ok ts task).1).2 = true) := by
  refine ⟨?_, ?_, ?_⟩ <;> unfold run_task <;> split_ifs <;> simp_all

/-- C3 amended witness: a succeeding callback does set `last_trigger`, a
failing one leaves the task untouched and re-invocable. -/
theorem last_trigger_set_only_on_success_witness :
    (run_task (fun _ => true) c3_ts c3_task).1.last_trigger = some c3_ts ∧
    (run_task (fun _ => false) c3_ts c3_task).1 = c3_task := by
  refine ⟨last_trigger_set_only_on_success (fun _ => true) c3_ts c3_task |>.1 (by decide) rfl, ?_⟩
  exact (last_trigger_set_only_on_success (fun _ => false) c3_ts c3_task).2.1 rfl

/-! ### Claim C8: slippage-adjusted execution price rounding -/

def c8_opts : Opts := { slippage_perc := 1 / 20, price_tick := 1 / 10 }

/-- C8 counterexample: with configured price tick 0.1, base price 1 and
slippage 0.05, the code's buy execution price is 1.02 (floor to the
hardcoded 0.01 grid) while rounding down to the nearest configured price
tick would give 1.0 — so the claim as stated is false. -/
theorem exec_price_ignores_configured_tick :
    (price_context c8_opts 1 1).map (fun c => c.exec_buy_price) = some (51 / 50) ∧
    spec_exec_buy_price 1 (1 / 20) (1 / 10) = 1 ∧ ((51 : ℚ) / 50) ≠ 1 := by
  refine ⟨by norm_num [price_context, c8_opts], ?_, by norm_num⟩
  norm_num [spec_exec_buy_price]

/-- C8 amended: for nonzero slippage the buy execution price is the base
price raised by half the slippage fraction rounded down to the FIXED 0.01
grid (`math.floor(price * 100) / 100`), regardless of the configured
`price_tick`, and the sell price is symmetric with rounding up; with zero
slippage both execution prices equal the base price, unrounded. -/
theorem price_context_rounds_to_hundredth (o : Opts) (bo bc : ℚ) (ctx : PriceCtx)
    (h : price_context o bo bc = some ctx) :
    ctx.exec_buy_price =
      (if o.slippage_perc = 0 then ctx.base_price
       else spec_exec_buy_price ctx.base_price o.slippage_perc (1 / 100)) ∧
    ctx.exec_sell_price =
      (if o.slippage_perc = 0 then ctx.base_price
       else spec_exec_sell_price ctx.base_price o.slippage_perc (1 / 100)) := by
  simp only [price_context] at h
  split_ifs at h
  all_goals first
    | exact Option.noConfusion h
    | · simp only [Option.some.injEq] at h
        subst h
        refine ⟨?_, ?_⟩ <;> simp only [spec_exec_buy_price, spec_exec_sell_price] <;>
          split_ifs <;> first
            | rfl
            | rw [div_div_eq_mul_div, div_one, mul_one_div]

def c8_ctx : PriceCtx :=
  { base_price := 1, exec_buy_price := 51 / 50, exec_sell_price := 49 / 50,
    slippage_perc := 1 / 20 }

/-- C8 amended witness: the rounding identity at slippage 0.05, base 1. -/
theorem price_context_rounds_to_hundredth_witness :
    price_context c8_opts 1 1 = some c8_ctx ∧
    c8_ctx.exec_buy_price = spec_exec_buy_price 1 (1 / 20) (1 / 100) ∧
    c8_ctx.exec_sell_price = spec_exec_sell_price 1 (1 / 20) (1 / 100) := by
  have hctx : price_context c8_opts 1 1 = some c8_ctx := by
    norm_num [price_context, c8_opts, c8_ctx, ceil_as_floor]
  have h := price_context_rounds_to_hundredth c8_opts 1 1 c8_ctx hctx
  refine ⟨hctx, ?_, ?_⟩
  · rw [h.1, if_neg (by norm_num [c8_opts])]
    rfl
  · rw [h.2, if_neg (by norm_num [c8_opts])]
    rfl

/-! ### Claim C1: T+1 closeable quantity -/

/-- The snapshot's closeable quantity equals `max 0 (total - bought_today)`
whenever the position and the today-bought entry are non-negative. -/
theorem snapshot_closeable_eq (st : EngState)
    (htot : 0 ≤ st.total_position) (hb : 0 ≤ st.daily_bought st.current_day) :
    snapshot_closeable st = max 0 (st.total_position - st.daily_bought st.current_day) := by
  by_cases h : st.total_position = 0
  · simp [snapshot_closeable, position_snapshot, merge_position, h]
    omega
  · simp only [snapshot_closeable, position_snapshot, merge_position, h, if_false]
    split_ifs
    all_goals simp_all
    all_goals omega

/-- Accumulation of buy fills over a day: position total and the day's
bought entry both grow by the sum of the fills, the day is unchanged. -/
theorem record_buy_foldl (st : EngState) (qs : List ℤ) :
    ((qs.foldl record_buy st).total_position = st.total_position + qs.sum) ∧
    ((qs.foldl record_buy st).current_day = st.current_day) ∧
    ((qs.foldl record_buy st).daily_bought st.current_day
      = st.daily_bought st.current_day + qs.sum) := by
  induction qs generalizing st with
  | nil => simp
  | cons q qs ih =>
    simp only [List.foldl_cons, List.sum_cons]
    have h := ih (record_buy st q)
    refine ⟨?_, ?_, ?_⟩
    · rw [h.1]
      simp [record_buy]
      ring
    · rw [h.2.1]
      rfl
    · have := h.2.2
      simp only [record_buy] at this ⊢
      rw [this]
      simp
      ring

/-- C1: after any sequence of same-day buy fills, the closeable quantity
reported by the position snapshot equals the position total minus the sum of
the quantities bought that day (clamped at 0); the total and the today-bought
entry each grew by exactly the fills' sum. -/
theorem closeable_equals_total_minus_today_bought (st : EngState) (qs : List ℤ)
    (htot : 0 ≤ st.total_position) (hb : 0 ≤ st.daily_bought st.current_day)
    (hq : ∀ q ∈ qs, 0 < q) :
    snapshot_closeable (qs.foldl record_buy st) =
      max 0 ((qs.foldl record_buy st).total_position -
             (qs.foldl record_buy st).daily_bought (qs.foldl record_buy st).current_day) ∧
    (qs.foldl record_buy st).total_position = st.total_position + qs.sum ∧
    (qs.foldl record_buy st).daily_bought (qs.foldl record_buy st).current_day =
      st.daily_bought st.current_day + qs.sum := by
  have hf := record_buy_foldl st qs
  have hsum : 0 ≤ qs.sum := List.sum_nonneg (fun q hqm => le_of_lt (hq q hqm))
  refine ⟨?_, hf.1, by rw [hf.2.1]; exact hf.2.2⟩
  apply snapshot_closeable_eq
  · rw [hf.1]
    omega
  · rw [hf.2.1, hf.2.2]
    omega

def c1_st : EngState := { cash := 100000, bar_open := 10, bar_close := 10, current_day := 1 }

/-- C1 witness: buying 1000 shares on day 1 gives total 1000 and closeable 0
that day, and closeable 1000 once the current day moves to day 2 with no
further buys. -/
theorem closeable_equals_total_minus_today_bought_witness :
    snapshot_closeable ([(1000 : ℤ)].foldl record_buy c1_st) = 0 ∧
    ([(1000 : ℤ)].foldl record_buy c1_st).total_position = 1000 ∧
    snapshot_closeable { [(1000 : ℤ)].foldl record_buy c1_st with current_day := 2 } = 1000 := by
  have h := closeable_equals_total_minus_today_bought c1_st [1000] (by decide) (by decide)
    (by intro q hq; simp at hq; omega)
  refine ⟨?_, ?_, by decide⟩
  · rw [h.1]
    decide
  · rw [h.2.1]
    decide

/-! ### Claim C5: sell requests bounded by the closeable quantity -/

/-- A positive `max_sell_shares` pins down the closeable amount. -/
theorem sell_max_pos {c : ℤ} (h : ¬ sell_max_shares c ≤ 0) : sell_max_shares c = c ∧ 0 < c := by
  unfold sell_max_shares at *
  split_ifs at * <;> omega

theorem sell_shares0_le (m t : ℤ) : sell_shares0 m t ≤ m := min_le_left _ _

/-- The sell path of `order_value`: any emitted sell is positive and at most
the closeable amount, the `[T+1_adjust]` clamp log entry appears exactly
when the fill is strictly smaller than the closeable amount, and a
non-positive closeable amount emits no order. -/
theorem order_value_sell_spec (st : EngState) (ctx : PriceCtx) (closeable : ℤ) (v : ℚ)
    (hdbg : st.opts.debug_trading = false) :
    (∀ s, (order_value_sell st ctx closeable v).2 = some (OrderAction.sellOrder s) →
        0 < s ∧ s ≤ closeable ∧
        (order_value_sell st ctx closeable v).1.log =
          st.log ++ (if s < closeable then [LogEvent.t1_adjust_clamp] else [])) ∧
    (closeable ≤ 0 → (order_value_sell st ctx closeable v).2 = none) := by
  simp only [order_value_sell, hdbg, Bool.false_eq_true, if_false]
  by_cases h1 : sell_max_shares closeable ≤ 0
  · rw [if_pos h1]
    exact ⟨fun s hs => absurd hs (by simp), fun _ => rfl⟩
  · have hm := sell_max_pos h1
    set p := if st.opts.sizing_use_raw_open_price = true then ctx.base_price
      else ctx.exec_sell_price with hp
    have hle := sell_shares0_le (sell_max_shares closeable)
      (sell_tentative (↑st.opts.lotEff) p (-v))
    rw [if_neg h1]
    refine ⟨fun s hs => ?_, fun hc => absurd hc (by omega)⟩
    split_ifs at hs ⊢ with h2 h3 h4 h5 h6
    all_goals simp only [Option.some.injEq, OrderAction.sellOrder.injEq] at hs
    all_goals subst hs
    all_goals refine ⟨by omega, by omega, ?_⟩
    all_goals simp [pushLog]
    all_goals omega

/-- C5 amended: for every sell request (`value < 0`, no debug logging), any
resulting fill is positive and at most the closeable quantity at request
time; the `[T+1_adjust]` clamp log entry is produced exactly when the fill
is strictly below the closeable amount (a partial sell) — not when the
request exceeds it — and a request with no closeable shares places no
order (and no exception propagates: every path returns a value). -/
theorem order_value_sell_clamps (st : EngState) (v : ℚ)
    (hv : v < 0) (hdbg : st.opts.debug_trading = false) :
    (∀ s, (order_value st v).2 = some (OrderAction.sellOrder s) →
        0 < s ∧ s ≤ snapshot_closeable st ∧
        (order_value st v).1.log =
          st.log ++ (if s < snapshot_closeable st then [LogEvent.t1_adjust_clamp] else [])) ∧
    (snapshot_closeable st ≤ 0 → (order_value st v).2 = none) := by
  by_cases hw : st.in_warmup = true
  · simp only [order_value, hw, if_true]
    exact ⟨fun s hs => absurd hs (by simp), fun _ => by trivial⟩
  · rcases hctx : price_context st.opts st.bar_open st.bar_close with _ | ctx
    · simp only [order_value, hw, Bool.false_eq_true, if_false, hctx]
      exact ⟨fun s hs => absurd hs (by simp), fun _ => by trivial⟩
    · rcases hg : limit_gate st.opts st.prev_close ctx.exec_buy_price ctx.exec_sell_price v with
        _ | ⟨side, price, status⟩
      · simp only [order_value, hw, hctx, hg, hdbg, Bool.false_eq_true, if_false]
        rw [if_neg (not_lt.mpr hv.le), if_pos hv]
        exact order_value_sell_spec st ctx (position_snapshot st).2 v hdbg
      · simp only [order_value, hw, hctx, hg, hdbg, Bool.false_eq_true, if_false]
        exact ⟨fun s hs => absurd hs (by simp), fun _ => by trivial⟩

def c5x_st : EngState :=
  { cash := 0, bar_open := 10, bar_close := 10, total_position := 200, current_day := 1 }

/-- C5 counterexample: selling value 5000 at price 10 requests 500 shares
while only 200 are closeable; the fill IS clamped to 200, but NO clamp log
entry is produced (the log stays empty), refuting the claim that a clamp
log entry accompanies every clamped sell. -/
theorem sell_clamp_not_logged :
    snapshot_closeable c5x_st = 200 ∧
    sell_tentative 100 10 5000 = 500 ∧
    (order_value c5x_st (-5000)).2 = some (OrderAction.sellOrder 200) ∧
    (order_value c5x_st (-5000)).1.log = [] := by
  refine ⟨by decide, by norm_num [sell_tentative], ?_, ?_⟩ <;>
    norm_num [order_value, order_value_sell, sell_max_shares, sell_tentative, sell_shares0,
      price_context, position_snapshot, merge_position, limit_gate, c5x_st, pushLog, Opts.lotEff]

def c5w_st : EngState :=
  { cash := 0, bar_open := 10, bar_close := 10, total_position := 500, current_day := 1 }

/-- C5 amended witness: selling value 2000 at price 10 with 500 closeable
fills 200 shares (a partial sell below the closeable amount) and produces
the `[T+1_adjust]` clamp log entry. -/
theorem order_value_sell_clamps_witness :
    (-2000 : ℚ) < 0 ∧
    (order_value c5w_st (-2000)).2 = some (OrderAction.sellOrder 200) ∧
    0 < (200 : ℤ) ∧ (200 : ℤ) ≤ snapshot_closeable c5w_st ∧
    (order_value c5w_st (-2000)).1.log = c5w_st.log ++ [LogEvent.t1_adjust_clamp] := by
  have hact : (order_value c5w_st (-2000)).2 = some (OrderAction.sellOrder 200) := by
    norm_num [order_value, order_value_sell, sell_max_shares, sell_tentative, sell_shares0,
      price_context, position_snapshot, merge_position, limit_gate, c5w_st, pushLog, Opts.lotEff]
  have h := (order_value_sell_clamps c5w_st (-2000) (by norm_num) rfl).1 200 hact
  refine ⟨by norm_num, hact, h.1, h.2.1, ?_⟩
  rw [h.2.2, if_pos (by decide)]

/-! ### Claim C4: price-limit blocking -/

/-- When the check is enabled, the previous close is positive, the request
is a buy (`value ≥ 0`) and the buy execution price reaches the up limit
within epsilon, the gate yields a `BlockedLimitUp` block. -/
theorem limit_gate_up_eq (o : Opts) (pc eb es v : ℚ)
    (hen : o.enable_limit_check = true) (hpc : 0 < pc) (hv : 0 ≤ v)
    (hlim : round_to_tick (pc * o.upFacEff) o.tickEff - limitEps ≤ eb) :
    limit_gate o (some pc) eb es v = some (Side.buy, eb, OrderStatus.blockedLimitUp) := by
  unfold limit_gate
  rw [hen, if_pos rfl]
  simp only [if_pos hpc]
  rw [if_pos ⟨hv, hlim⟩]

/-- The symmetric `BlockedLimitDown` case for sells at/below the down limit. -/
theorem limit_gate_down_eq (o : Opts) (pc eb es v : ℚ)
    (hen : o.enable_limit_check = true) (hpc : 0 < pc) (hv : v < 0)
    (hlim : es ≤ round_to_tick (pc * o.downFacEff) o.tickEff + limitEps) :
    limit_gate o (some pc) eb es v = some (Side.sell, es, OrderStatus.blockedLimitDown) := by
  unfold limit_gate
  rw [hen, if_pos rfl]
  simp only [if_pos hpc]
  rw [if_neg (fun hc => absurd hc.1 (not_le.mpr hv)), if_pos ⟨hv, hlim⟩]

/-- C4: with the price-limit check enabled and a positive previous close, a
buy whose execution price reaches
`round_to_tick(prev_close * limit_up_factor)` within epsilon appends exactly
one `BlockedLimitUp` record of size 0 to the blocked-order log, emits a
`[limit_check]` log entry, and returns no order — the rest of the state
(cash, position, bought map) is untouched; symmetrically a sell at/below
the down limit is recorded as `BlockedLimitDown`. -/
theorem order_value_limit_blocks :
    (∀ (st : EngState) (v : ℚ) (ctx : PriceCtx) (pc : ℚ),
      st.in_warmup = false →
      st.opts.debug_trading = false →
      price_context st.opts st.bar_open st.bar_close = some ctx →
      st.opts.enable_limit_check = true →
      st.prev_close = some pc →
      0 < pc →
      0 ≤ v →
      round_to_tick (pc * st.opts.upFacEff) st.opts.tickEff - limitEps ≤ ctx.exec_buy_price →
      order_value st v =
        (pushBlocked (pushLog st (LogEvent.limit_check_block Side.buy))
          (mkBlockedRecord st.current_day Side.buy ctx.exec_buy_price OrderStatus.blockedLimitUp),
         none)) ∧
    (∀ (st : EngState) (v : ℚ) (ctx : PriceCtx) (pc : ℚ),
      st.in_warmup = false →
      st.opts.debug_trading = false →
      price_context st.opts st.bar_open st.bar_close = some ctx →
      st.opts.enable_limit_check = true →
      st.prev_close = some pc →
      0 < pc →
      v < 0 →
      ctx.exec_sell_price ≤ round_to_tick (pc * st.opts.downFacEff) st.opts.tickEff + limitEps →
      order_value st v =
        (pushBlocked (pushLog st (LogEvent.limit_check_block Side.sell))
          (mkBlockedRecord st.current_day Side.sell ctx.exec_sell_price
            OrderStatus.blockedLimitDown),
         none)) := by
  constructor
  · intro st v ctx pc hw hdbg hctx hen hprev hpc hv hlim
    simp only [order_value, hw, Bool.false_eq_true, if_false, hctx, hdbg, hprev,
      limit_gate_up_eq st.opts pc ctx.exec_buy_price ctx.exec_sell_price v hen hpc hv hlim]
  · intro st v ctx pc hw hdbg hctx hen hprev hpc hv hlim
    simp only [order_value, hw, Bool.false_eq_true, if_false, hctx, hdbg, hprev,
      limit_gate_down_eq st.opts pc ctx.exec_buy_price ctx.exec_sell_price v hen hpc hv hlim]

def c4_st : EngState :=
  { opts := { enable_limit_check := true }, cash := 100000, bar_open := 11, bar_close := 11,
    prev_close := some 10, current_day := 3 }

def c4_ctx : PriceCtx :=
  { base_price := 11, exec_buy_price := 11, exec_sell_price := 11, slippage_perc := 0 }

/-- C4 witness: previous close 10.00, factor 1.10, tick 0.01 give up-limit
11.00; a buy resolving to 11.00 is recorded as a size-0 `BlockedLimitUp`. -/
theorem order_value_limit_blocks_witness :
    round_to_tick (10 * c4_st.opts.upFacEff) c4_st.opts.tickEff = 11 ∧
    order_value c4_st 100 =
      (pushBlocked (pushLog c4_st (LogEvent.limit_check_block Side.buy))
        (mkBlockedRecord 3 Side.buy 11 OrderStatus.blockedLimitUp), none) ∧
    (mkBlockedRecord 3 Side.buy 11 OrderStatus.blockedLimitUp).size = 0 := by
  have hctx : price_context c4_st.opts c4_st.bar_open c4_st.bar_close = some c4_ctx := by
    norm_num [price_context, c4_st, c4_ctx]
  have hup : round_to_tick (10 * c4_st.opts.upFacEff) c4_st.opts.tickEff = 11 := by
    norm_num [round_to_tick, Opts.upFacEff, Opts.tickEff, c4_st]
  have h := order_value_limit_blocks.1 c4_st 100 c4_ctx 10 rfl rfl hctx rfl rfl (by norm_num)
    (by norm_num) (by rw [hup]; norm_num [limitEps, c4_ctx])
  refine ⟨hup, ?_, rfl⟩
  rw [h]
  rfl

/-! ### Claim C2: buy sizing never overdraws cash -/

/-- A positive result of the decrement loop is affordable. -/
theorem shrink_shares_affordable (cash p rate minc : ℚ) (lot : ℕ) :
    ∀ fuel s, 0 < shrink_shares cash p rate minc lot fuel s →
      affordable cash p rate minc (shrink_shares cash p rate minc lot fuel s) := by
  intro fuel
  induction fuel with
  | zero =>
    intro s h
    cases s <;> simp [shrink_shares] at h
  | succ n ih =>
    intro s h
    cases s with
    | zero => simp [shrink_shares] at h
    | succ m =>
      simp only [shrink_shares] at h ⊢
      split_ifs at h ⊢ with ha
      · exact ha
      · exact ih _ h

/-- The decrement loop preserves lot-multiplicity. -/
theorem shrink_shares_dvd (cash p rate minc : ℚ) (lot : ℕ) :
    ∀ fuel s, lot ∣ s → lot ∣ shrink_shares cash p rate minc lot fuel s := by
  intro fuel
  induction fuel with
  | zero =>
    intro s hs
    cases s <;> simp [shrink_shares]
  | succ n ih =>
    intro s hs
    cases s with
    | zero => simp [shrink_shares]
    | succ m =>
      simp only [shrink_shares]
      split_ifs
      · exact hs
      · exact ih _ (Nat.dvd_sub' hs dvd_rfl)

/-- The candidate buy share count is a lot multiple by construction. -/
theorem buy_candidate_dvd (o : Opts) (ctx : PriceCtx) (pc : Option ℚ) (v : ℚ) :
    o.lotEff ∣ buy_candidate_shares o ctx pc v :=
  dvd_mul_left _ _

/-- Any buy emitted by the buy path is positive, a lot multiple, and its
gross plus commission (at the buy execution price) fits in the pre-trade
cash. -/
theorem order_value_buy_spec (st : EngState) (ctx : PriceCtx) (v : ℚ) (s : ℤ)
    (h : (order_value_buy st ctx v).2 = some (OrderAction.buyOrder s)) :
    0 < s ∧ ((st.opts.lotEff : ℤ)) ∣ s ∧
      (s : ℚ) * ctx.exec_buy_price +
        max ((s : ℚ) * ctx.exec_buy_price * st.opts.commission) st.opts.min_commission
          ≤ st.cash := by
  have hdvd := buy_candidate_dvd st.opts ctx st.prev_close v
  simp only [order_value_buy, apply_ite Prod.snd] at h
  split_ifs at h with h1 h2 h3
  all_goals
    first
      | exact Option.noConfusion h
      | (simp only [Option.some.injEq, OrderAction.buyOrder.injEq] at h
         subst h
         rename_i hpos
         first
           | (refine ⟨Int.natCast_pos.mpr hpos,
                Int.natCast_dvd_natCast.mpr (shrink_shares_dvd _ _ _ _ _ _ _ hdvd), ?_⟩
              have ha := shrink_shares_affordable _ _ _ _ _ _ _ hpos
              unfold affordable est_cost at ha
              push_cast
              exact ha)
           | (refine ⟨Int.natCast_pos.mpr hpos, Int.natCast_dvd_natCast.mpr hdvd, ?_⟩
              have ha := le_of_not_lt (by assumption :
                ¬ st.cash < est_cost ctx.exec_buy_price st.opts.commission st.opts.min_commission
                    (buy_candidate_shares st.opts ctx st.prev_close v))
              unfold est_cost at ha
              push_cast
              exact ha))

/-- C2: every accepted `order_value` buy (positive value) fills a positive
lot-multiple share count whose gross plus commission
(`max(gross × commission_rate, min_commission)`) is at most the pre-trade
cash, so a buy can never drive cash negative. -/
theorem order_value_buy_cash_safe (st : EngState) (v : ℚ) (s : ℤ)
    (hv : 0 < v)
    (h : (order_value st v).2 = some (OrderAction.buyOrder s)) :
    ∃ ctx, price_context st.opts st.bar_open st.bar_close = some ctx ∧
      0 < s ∧ ((st.opts.lotEff : ℤ)) ∣ s ∧
      (s : ℚ) * ctx.exec_buy_price +
        max ((s : ℚ) * ctx.exec_buy_price * st.opts.commission) st.opts.min_commission
          ≤ st.cash := by
  by_cases hw : st.in_warmup = true
  · simp [order_value, hw] at h
  · rcases hctx : price_context st.opts st.bar_open st.bar_close with _ | ctx
    · simp [order_value, hw, hctx] at h
    · rcases hg : limit_gate st.opts st.prev_close ctx.exec_buy_price ctx.exec_sell_price v with
        _ | ⟨side, price, status⟩
      · simp only [order_value, hw, Bool.false_eq_true, if_false, hctx, hg, if_pos hv] at h
        by_cases hdb : st.opts.debug_trading = true
        · simp only [hdb, if_true] at h
          exact ⟨ctx, rfl, order_value_buy_spec (pushLog st LogEvent.sizing_slip_mode) ctx v s h⟩
        · simp only [hdb, Bool.false_eq_true, if_false] at h
          exact ⟨ctx, rfl, order_value_buy_spec st ctx v s h⟩
      · simp [order_value, hw, hctx, hg] at h

def c2_st : EngState := { cash := 100000, bar_open := 10, bar_close := 10 }

/-- C2 witness: with cash 100000, price 10, commission rate 0.0003 and
minimum commission 5, `order_value` of 80000 fills 8000 shares; the
commission is 24 and the total cost 80024 fits in the cash. -/
theorem order_value_buy_cash_safe_witness :
    (0 : ℚ) < 80000 ∧
    (order_value c2_st 80000).2 = some (OrderAction.buyOrder 8000) ∧
    max ((8000 : ℚ) * 10 * c2_st.opts.commission) c2_st.opts.min_commission = 24 ∧
    (∃ ctx, price_context c2_st.opts c2_st.bar_open c2_st.bar_close = some ctx ∧
      0 < (8000 : ℤ) ∧ ((c2_st.opts.lotEff : ℤ)) ∣ 8000 ∧
      (8000 : ℚ) * ctx.exec_buy_price +
        max ((8000 : ℚ) * ctx.exec_buy_price * c2_st.opts.commission) c2_st.opts.min_commission
          ≤ c2_st.cash) := by
  have hact : (order_value c2_st 80000).2 = some (OrderAction.buyOrder 8000) := by
    norm_num [order_value, order_value_buy, buy_candidate_shares, est_cost, price_context,
      position_snapshot, merge_position, limit_gate, c2_st, pushLog, Opts.lotEff,
      show Int.toNat 8000 = 8000 from rfl]
  exact ⟨by norm_num, hact, by norm_num [c2_st],
    order_value_buy_cash_safe c2_st 80000 8000 (by norm_num) hact⟩

/-! ### Claim C6: order sizes and the lot -/

/-- Both components of the position snapshot inherit lot-multiplicity from
the position total and the today-bought entry. -/
theorem position_snapshot_dvd (st : EngState) (l : ℤ)
    (ht : l ∣ st.total_position) (hb : l ∣ st.daily_bought st.current_day) :
    l ∣ (position_snapshot st).1 ∧ l ∣ (position_snapshot st).2 := by
  unfold position_snapshot merge_position
  by_cases h : st.total_position = 0
  · simp [h]
  · have hmax : l ∣ max 0 (st.total_position - st.daily_bought st.current_day) := by
      rcases max_choice 0 (st.total_position - st.daily_bought st.current_day) with hm | hm <;>
        rw [hm]
      · exact dvd_zero l
      · exact dvd_sub ht hb
    simp only [h, if_false]
    constructor
    · exact ht
    · split_ifs <;> first | exact ht | exact hmax | exact dvd_zero l

theorem sell_max_shares_dvd {l c : ℤ} (hc : l ∣ c) : l ∣ sell_max_shares c := by
  unfold sell_max_shares
  split_ifs
  · exact hc
  · exact dvd_zero l

theorem sell_tentative_dvd (l : ℤ) (p va : ℚ) : l ∣ sell_tentative l p va := by
  simp only [sell_tentative]
  split_ifs
  all_goals first
    | exact dvd_zero l
    | exact dvd_mul_left l _

theorem sell_shares0_dvd {l m t : ℤ} (hm : l ∣ m) (ht : l ∣ t) : l ∣ sell_shares0 m t := by
  unfold sell_shares0
  rcases min_choice m (if 0 < t then t else m) with h | h <;> rw [h]
  · exact hm
  · split_ifs
    · exact ht
    · exact hm

theorem target_lot_rounded_dvd (l : ℤ) (t : ℚ) : l ∣ target_lot_rounded l t := by
  simp only [target_lot_rounded]
  split_ifs
  · exact dvd_mul_left _ _
  · exact dvd_neg.mpr (dvd_mul_left _ _)

theorem target_sell_size_dvd {l m n : ℤ} (hm : l ∣ m) (hn : l ∣ n) :
    l ∣ target_sell_size l m n := by
  simp only [target_sell_size]
  have h0 : l ∣ min m n := by
    rcases min_choice m n with h | h <;> rw [h]
    · exact hm
    · exact hn
  split_ifs with h1 h2
  · exact hm
  · exact dvd_mul_left _ _
  · exact h0

/-- Every sell the sell path emits is a lot multiple when the closeable
amount is one. -/
theorem order_value_sell_dvd (st : EngState) (ctx : PriceCtx) (closeable : ℤ) (v : ℚ)
    (a : OrderAction)
    (hc : ((st.opts.lotEff : ℤ)) ∣ closeable)
    (h : (order_value_sell st ctx closeable v).2 = some a) :
    ((st.opts.lotEff : ℤ)) ∣ a.size := by
  have hms := sell_max_shares_dvd hc
  simp only [order_value_sell, apply_ite Prod.snd] at h
  split_ifs at h with h1 h2 h3 h4
  all_goals
    first
      | exact Option.noConfusion h
      | (simp only [Option.some.injEq] at h
         subst h
         first
           | exact hms
           | exact sell_shares0_dvd hms (sell_tentative_dvd _ _ _))

/-- Every buy the buy path emits is a lot multiple. -/
theorem order_value_buy_dvd (st : EngState) (ctx : PriceCtx) (v : ℚ) (a : OrderAction)
    (h : (order_value_buy st ctx v).2 = some a) :
    ((st.opts.lotEff : ℤ)) ∣ a.size := by
  have hdvd := buy_candidate_dvd st.opts ctx st.prev_close v
  simp only [order_value_buy, apply_ite Prod.snd] at h
  split_ifs at h
  all_goals
    first
      | exact Option.noConfusion h
      | (simp only [Option.some.injEq] at h
         subst h
         first
           | exact Int.natCast_dvd_natCast.mpr (shrink_shares_dvd _ _ _ _ _ _ _ hdvd)
           | exact Int.natCast_dvd_natCast.mpr hdvd)

theorem order_value_dvd (st : EngState) (v : ℚ) (a : OrderAction)
    (ht : ((st.opts.lotEff : ℤ)) ∣ st.total_position)
    (hb : ((st.opts.lotEff : ℤ)) ∣ st.daily_bought st.current_day)
    (h : (order_value st v).2 = some a) :
    ((st.opts.lotEff : ℤ)) ∣ a.size := by
  have hsnap := position_snapshot_dvd st _ ht hb
  by_cases hw : st.in_warmup = true
  · simp [order_value, hw] at h
  · rcases hctx : price_context st.opts st.bar_open st.bar_close with _ | ctx
    · simp [order_value, hw, hctx] at h
    · rcases hg : limit_gate st.opts st.prev_close ctx.exec_buy_price ctx.exec_sell_price v with
        _ | ⟨side, price, status⟩
      · simp only [order_value, hw, Bool.false_eq_true, if_false, hctx, hg] at h
        split_ifs at h
        all_goals
          first
            | exact Option.noConfusion h
            | exact order_value_buy_dvd (pushLog st LogEvent.sizing_slip_mode) ctx v a h
            | exact order_value_buy_dvd st ctx v a h
            | exact order_value_sell_dvd (pushLog st LogEvent.sizing_slip_mode) ctx
                (position_snapshot st).2 v a hsnap.2 h
            | exact order_value_sell_dvd st ctx (position_snapshot st).2 v a hsnap.2 h
      · simp [order_value, hw, hctx, hg] at h

theorem order_dvd (st : EngState) (n : ℤ) (a : OrderAction)
    (ht : ((st.opts.lotEff : ℤ)) ∣ st.total_position)
    (hb : ((st.opts.lotEff : ℤ)) ∣ st.daily_bought st.current_day)
    (h : (order st n).2 = some a) :
    ((st.opts.lotEff : ℤ)) ∣ a.size := by
  by_cases hw : st.in_warmup = true
  · simp [order, hw] at h
  · rcases hctx : price_context st.opts st.bar_open st.bar_close with _ | ctx
    · simp [order, hw, hctx] at h
    · simp only [order, hw, Bool.false_eq_true, if_false, hctx] at h
      split_ifs at h
      all_goals
        first
          | exact Option.noConfusion h
          | exact order_value_dvd st _ a ht hb h

theorem order_target_dvd (st : EngState) (t : ℚ) (a : OrderAction)
    (ht : ((st.opts.lotEff : ℤ)) ∣ st.total_position)
    (hb : ((st.opts.lotEff : ℤ)) ∣ st.daily_bought st.current_day)
    (h : (order_target st t).2 = some a) :
    ((st.opts.lotEff : ℤ)) ∣ a.size := by
  have hsnap := position_snapshot_dvd st _ ht hb
  have hdelta : ((st.opts.lotEff : ℤ)) ∣
      target_lot_rounded (st.opts.lotEff : ℤ) t - (position_snapshot st).1 :=
    dvd_sub (target_lot_rounded_dvd _ _) hsnap.1
  by_cases hw : st.in_warmup = true
  · simp [order_target, hw] at h
  · rcases hctx : price_context st.opts st.bar_open st.bar_close with _ | ctx
    · simp [order_target, hw, hctx] at h
    · simp only [order_target, hw, Bool.false_eq_true, if_false, hctx] at h
      rcases hg : limit_gate st.opts st.prev_close ctx.exec_buy_price ctx.exec_sell_price
          (((target_lot_rounded ((st.opts.lotEff : ℤ)) t - (position_snapshot st).1 : ℤ)) : ℚ)
        with _ | ⟨side, price, status⟩
      all_goals rw [hg] at h
      · split_ifs at h
        all_goals
          first
            | exact Option.noConfusion h
            | (simp only [Option.some.injEq] at h
               subst h
               first
                 | exact hdelta
                 | exact target_sell_size_dvd (sell_max_shares_dvd hsnap.2)
                     (dvd_neg.mpr hdelta))
      · split_ifs at h

theorem order_target_value_dvd (st : EngState) (v : ℚ) (a : OrderAction)
    (ht : ((st.opts.lotEff : ℤ)) ∣ st.total_position)
    (hb : ((st.opts.lotEff : ℤ)) ∣ st.daily_bought st.current_day)
    (h : (order_target_value st v).2 = some a) :
    ((st.opts.lotEff : ℤ)) ∣ a.size := by
  by_cases hw : st.in_warmup = true
  · simp [order_target_value, hw] at h
  · rcases hctx : price_context st.opts st.bar_open st.bar_close with _ | ctx
    · simp [order_target_value, hw, hctx] at h
    · simp only [order_target_value, hw, Bool.false_eq_true, if_false, hctx] at h
      split_ifs at h
      all_goals
        first
          | exact Option.noConfusion h
          | exact order_target_dvd st _ a ht hb h

theorem order_target_percent_dvd (st : EngState) (p : ℚ) (a : OrderAction)
    (ht : ((st.opts.lotEff : ℤ)) ∣ st.total_position)
    (hb : ((st.opts.lotEff : ℤ)) ∣ st.daily_bought st.current_day)
    (h : (order_target_percent st p).2 = some a) :
    ((st.opts.lotEff : ℤ)) ∣ a.size := by
  by_cases hw : st.in_warmup = true
  · simp [order_target_percent, hw] at h
  · simp only [order_target_percent, hw, Bool.false_eq_true, if_false] at h
    split_ifs at h
    all_goals
      first
        | exact Option.noConfusion h
        | exact order_target_value_dvd st _ a ht hb h

/-- C6 amended: provided the current position total and the today-bought
quantity are themselves multiples of the effective lot — which is the case
when all fills come from these intents — every order emitted by any of the
five order intents has a lot-multiple size.  (Without that precondition
`order_target` can emit a non-multiple delta, see the counterexample.) -/
theorem intent_sizes_lot_multiple (st : EngState)
    (ht : ((st.opts.lotEff : ℤ)) ∣ st.total_position)
    (hb : ((st.opts.lotEff : ℤ)) ∣ st.daily_bought st.current_day) :
    (∀ v a, (order_value st v).2 = some a → ((st.opts.lotEff : ℤ)) ∣ a.size) ∧
    (∀ n a, (order st n).2 = some a → ((st.opts.lotEff : ℤ)) ∣ a.size) ∧
    (∀ t a, (order_target st t).2 = some a → ((st.opts.lotEff : ℤ)) ∣ a.size) ∧
    (∀ v a, (order_target_value st v).2 = some a → ((st.opts.lotEff : ℤ)) ∣ a.size) ∧
    (∀ p a, (order_target_percent st p).2 = some a → ((st.opts.lotEff : ℤ)) ∣ a.size) :=
  ⟨fun v a h => order_value_dvd st v a ht hb h,
   fun n a h => order_dvd st n a ht hb h,
   fun t a h => order_target_dvd st t a ht hb h,
   fun v a h => order_target_value_dvd st v a ht hb h,
   fun p a h => order_target_percent_dvd st p a ht hb h⟩

def c6x_st : EngState :=
  { cash := 0, bar_open := 10, bar_close := 10, total_position := 150, current_day := 1 }

/-- C6 counterexample: with a position of 150 shares (reachable through the
corporate-action fills in `compiler.py`, which bypass lot sizing),
`order_target(200)` emits a buy of 50 shares — neither zero nor a multiple
of the lot 100 — so the claim as stated is false. -/
theorem order_target_emits_non_lot_multiple :
    (order_target c6x_st 200).2 = some (OrderAction.buyOrder 50) ∧
    c6x_st.opts.lotEff = 100 ∧ ¬ ((100 : ℤ) ∣ (OrderAction.buyOrder 50).size) ∧
    (OrderAction.buyOrder 50).size ≠ 0 := by
  refine ⟨?_, rfl, by decide, by decide⟩
  norm_num [order_target, target_lot_rounded, pyInt, price_context, position_snapshot,
    merge_position, limit_gate, c6x_st, Opts.lotEff]

def c6w_st : EngState :=
  { cash := 100000, bar_open := 10, bar_close := 10, total_position := 300,
    daily_bought := fun d => if d = 1 then 100 else 0, current_day := 1 }

/-- C6 amended witness: with a lot-multiple position (300 total, 100 bought
today), `order_target(100)` sells 200 — a lot multiple. -/
theorem intent_sizes_lot_multiple_witness :
    ((c6w_st.opts.lotEff : ℤ)) ∣ c6w_st.total_position ∧
    ((c6w_st.opts.lotEff : ℤ)) ∣ c6w_st.daily_bought c6w_st.current_day ∧
    (order_target c6w_st 100).2 = some (OrderAction.sellOrder 200) ∧
    ((c6w_st.opts.lotEff : ℤ)) ∣ (OrderAction.sellOrder 200).size := by
  have hact : (order_target c6w_st 100).2 = some (OrderAction.sellOrder 200) := by
    norm_num [order_target, target_lot_rounded, target_sell_size, sell_max_shares, pyInt,
      price_context, position_snapshot, merge_position, limit_gate, c6w_st, Opts.lotEff]
  exact ⟨by decide, by decide, hact,
    (intent_sizes_lot_multiple c6w_st (by decide) (by decide)).2.2.1 100
      (OrderAction.sellOrder 200) hact⟩

/-! ### Claim C9: minute-to-daily aggregation -/

/-- `getLast?` of a cons in terms of `getLastD` (shape used by `aggGroup`). -/
theorem cons_getLast? {α : Type} (r : α) (rs : List α) :
    (r :: rs).getLast? = some (rs.getLastD r) := by
  induction rs generalizing r with
  | nil => rfl
  | cons x xs ih => rw [List.getLastD_cons, ← ih x]; rfl

theorem foldl_max_init_le (f : MinuteRow → ℚ) :
    ∀ (l : List MinuteRow) (a : ℚ), a ≤ l.foldl (fun acc x => max acc (f x)) a := by
  intro l
  induction l with
  | nil => intro a; simp
  | cons x xs ih => intro a; exact le_trans (le_max_left _ _) (ih (max a (f x)))

theorem foldl_max_mem_le (f : MinuteRow → ℚ) :
    ∀ (l : List MinuteRow) (a : ℚ), ∀ r ∈ l, f r ≤ l.foldl (fun acc x => max acc (f x)) a := by
  intro l
  induction l with
  | nil => intro a r hr; simp at hr
  | cons x xs ih =>
    intro a r hr
    rcases List.mem_cons.mp hr with h | h
    · subst h
      exact le_trans (le_max_right _ _) (foldl_max_init_le f xs (max a (f r)))
    · exact ih (max a (f x)) r h

theorem foldl_max_attained (f : MinuteRow → ℚ) :
    ∀ (l : List MinuteRow) (a : ℚ),
      l.foldl (fun acc x => max acc (f x)) a = a ∨
      ∃ r ∈ l, l.foldl (fun acc x => max acc (f x)) a = f r := by
  intro l
  induction l with
  | nil => intro a; exact Or.inl rfl
  | cons x xs ih =>
    intro a
    rcases ih (max a (f x)) with h | ⟨r, hr, h⟩
    · rcases max_choice a (f x) with hm | hm
      · exact Or.inl (by rw [List.foldl_cons, h, hm])
      · exact Or.inr ⟨x, List.mem_cons_self x xs, by rw [List.foldl_cons, h, hm]⟩
    · exact Or.inr ⟨r, List.mem_cons_of_mem x hr, by rw [List.foldl_cons, h]⟩

theorem foldl_min_init_le (f : MinuteRow → ℚ) :
    ∀ (l : List MinuteRow) (a : ℚ), l.foldl (fun acc x => min acc (f x)) a ≤ a := by
  intro l
  induction l with
  | nil => intro a; simp
  | cons x xs ih => intro a; exact le_trans (ih (min a (f x))) (min_le_left _ _)

theorem foldl_min_le_mem (f : MinuteRow → ℚ) :
    ∀ (l : List MinuteRow) (a : ℚ), ∀ r ∈ l, l.foldl (fun acc x => min acc (f x)) a ≤ f r := by
  intro l
  induction l with
  | nil => intro a r hr; simp at hr
  | cons x xs ih =>
    intro a r hr
    rcases List.mem_cons.mp hr with h | h
    · subst h
      exact le_trans (foldl_min_init_le f xs (min a (f r))) (min_le_right _ _)
    · exact ih (min a (f x)) r h

theorem foldl_min_attained (f : MinuteRow → ℚ) :
    ∀ (l : List MinuteRow) (a : ℚ),
      l.foldl (fun acc x => min acc (f x)) a = a ∨
      ∃ r ∈ l, l.foldl (fun acc x => min acc (f x)) a = f r := by
  intro l
  induction l with
  | nil => intro a; exact Or.inl rfl
  | cons x xs ih =>
    intro a
    rcases ih (min a (f x)) with h | ⟨r, hr, h⟩
    · rcases min_choice a (f x) with hm | hm
      · exact Or.inl (by rw [List.foldl_cons, h, hm])
      · exact Or.inr ⟨x, List.mem_cons_self x xs, by rw [List.foldl_cons, h, hm]⟩
    · exact Or.inr ⟨r, List.mem_cons_of_mem x hr, by rw [List.foldl_cons, h]⟩

/-- The aggregated bar carries its group's date. -/
theorem aggGroup_date (d : ℕ) (grp : List MinuteRow) : (aggGroup d grp).date = d := by
  cases grp <;> rfl

/-- Field characterisation of one aggregated daily bar: open is the first
row's open, close the last row's close, high/low are attained bounds, and
volume/amount are the sums. -/
theorem aggGroup_spec (d : ℕ) (grp : List MinuteRow) (hne : grp ≠ []) :
    (∀ r₀, grp.head? = some r₀ → (aggGroup d grp).opn = r₀.opn) ∧
    (∀ rl, grp.getLast? = some rl → (aggGroup d grp).cls = rl.cls) ∧
    (∀ r ∈ grp, r.high ≤ (aggGroup d grp).high ∧ (aggGroup d grp).low ≤ r.low) ∧
    ((aggGroup d grp).high ∈ grp.map MinuteRow.high) ∧
    ((aggGroup d grp).low ∈ grp.map MinuteRow.low) ∧
    (aggGroup d grp).volume = (grp.map MinuteRow.volume).sum ∧
    (aggGroup d grp).amount = (grp.map MinuteRow.amount).sum := by
  cases grp with
  | nil => exact absurd rfl hne
  | cons r rs =>
    refine ⟨?_, ?_, ?_, ?_, ?_, rfl, rfl⟩
    · intro r₀ h
      simp only [List.head?_cons, Option.some.injEq] at h
      subst h
      rfl
    · intro rl h
      rw [cons_getLast?] at h
      simp only [Option.some.injEq] at h
      subst h
      rfl
    · intro x hx
      rcases List.mem_cons.mp hx with h | h
      · subst h
        exact ⟨foldl_max_init_le MinuteRow.high rs x.high,
               foldl_min_init_le MinuteRow.low rs x.low⟩
      · exact ⟨foldl_max_mem_le MinuteRow.high rs r.high x h,
               foldl_min_le_mem MinuteRow.low rs r.low x h⟩
    · rcases foldl_max_attained MinuteRow.high rs r.high with h | ⟨x, hx, h⟩
      · show rs.foldl (fun a x => max a x.high) r.high ∈ _
        rw [h]
        exact List.mem_map_of_mem _ (List.mem_cons_self r rs)
      · show rs.foldl (fun a x => max a x.high) r.high ∈ _
        rw [h]
        exact List.mem_map_of_mem _ (List.mem_cons_of_mem r hx)
    · rcases foldl_min_attained MinuteRow.low rs r.low with h | ⟨x, hx, h⟩
      · show rs.foldl (fun a x => min a x.low) r.low ∈ _
        rw [h]
        exact List.mem_map_of_mem _ (List.mem_cons_self r rs)
      · show rs.foldl (fun a x => min a x.low) r.low ∈ _
        rw [h]
        exact List.mem_map_of_mem _ (List.mem_cons_of_mem r hx)

/-- C9: aggregating a non-empty minute dataframe produces exactly one daily
bar per distinct calendar date (no duplicates, non-empty), and for every
date occurring in the input there is a bar whose open is the first minute's
open, close the last minute's close, high the attained maximum, low the
attained minimum, and volume/amount the sums over that date's rows. -/
theorem aggregate_minute_daily_bars (rows : List MinuteRow) (hne : rows ≠ []) :
    (aggregate_minute_dataframe rows).length = ((rows.map MinuteRow.date).dedup).length ∧
    ((aggregate_minute_dataframe rows).map DailyRow.date).Nodup ∧
    aggregate_minute_dataframe rows ≠ [] ∧
    ∀ d ∈ rows.map MinuteRow.date,
      ∃ b ∈ aggregate_minute_dataframe rows, b.date = d ∧
        (∀ r₀, (rows.filter (fun r => r.date = d)).head? = some r₀ → b.opn = r₀.opn) ∧
        (∀ rl, (rows.filter (fun r => r.date = d)).getLast? = some rl → b.cls = rl.cls) ∧
        (∀ r ∈ rows.filter (fun r => r.date = d), r.high ≤ b.high ∧ b.low ≤ r.low) ∧
        b.high ∈ (rows.filter (fun r => r.date = d)).map MinuteRow.high ∧
        b.low ∈ (rows.filter (fun r => r.date = d)).map MinuteRow.low ∧
        b.volume = ((rows.filter (fun r => r.date = d)).map MinuteRow.volume).sum ∧
        b.amount = ((rows.filter (fun r => r.date = d)).map MinuteRow.amount).sum := by
  have hperm := List.mergeSort_perm ((rows.map MinuteRow.date).dedup) (fun a b => a ≤ b)
  have hmem : ∀ d, d ∈ rows.map MinuteRow.date →
      aggGroup d (rows.filter (fun r => r.date = d)) ∈ aggregate_minute_dataframe rows := by
    intro d hd
    have hd2 : d ∈ (rows.map MinuteRow.date).dedup := List.mem_dedup.mpr hd
    exact List.mem_map_of_mem _ (hperm.mem_iff.mpr hd2)
  refine ⟨?_, ?_, ?_, ?_⟩
  · simp only [aggregate_minute_dataframe, List.length_map]
    exact hperm.length_eq
  · have hmap : ((aggregate_minute_dataframe rows).map DailyRow.date) =
        ((rows.map MinuteRow.date).dedup).mergeSort (fun a b => a ≤ b) := by
      simp only [aggregate_minute_dataframe, List.map_map]
      rw [show (DailyRow.date ∘ fun d => aggGroup d (rows.filter (fun r => r.date = d))) = id
        from funext fun d => aggGroup_date d _]
      exact List.map_id _
    rw [hmap]
    exact hperm.symm.nodup (List.nodup_dedup _)
  · rcases List.exists_mem_of_ne_nil rows hne with ⟨r, hr⟩
    exact List.ne_nil_of_mem (hmem r.date (List.mem_map_of_mem _ hr))
  · intro d hd
    refine ⟨aggGroup d (rows.filter (fun r => r.date = d)), hmem d hd, aggGroup_date _ _, ?_⟩
    have hgne : rows.filter (fun r => r.date = d) ≠ [] := by
      rcases List.mem_map.mp hd with ⟨r, hr, hrd⟩
      exact List.ne_nil_of_mem (List.mem_filter.mpr ⟨hr, by simp [hrd]⟩)
    exact aggGroup_spec d _ hgne

def c9_rows : List MinuteRow :=
  [ { date := 1, opn := 10, high := 11, low := 9, cls := 21/2, volume := 100, amount := 1000 },
    { date := 1, opn := 21/2, high := 12, low := 10, cls := 11, volume := 200, amount := 2100 },
    { date := 2, opn := 11, high := 13, low := 10, cls := 12, volume := 150, amount := 1800 },
    { date := 2, opn := 12, high := 12, low := 8, cls := 9, volume := 50, amount := 500 },
    { date := 3, opn := 9, high := 10, low := 9, cls := 10, volume := 300, amount := 2900 },
    { date := 3, opn := 10, high := 14, low := 7, cls := 13, volume := 100, amount := 1200 } ]

/-- C9 witness: six minute bars spanning 3 trading days aggregate to
exactly 3 daily bars with pairwise-distinct dates. -/
theorem aggregate_minute_daily_bars_witness :
    c9_rows ≠ [] ∧
    (aggregate_minute_dataframe c9_rows).length = 3 ∧
    ((aggregate_minute_dataframe c9_rows).map DailyRow.date).Nodup := by
  have h := aggregate_minute_daily_bars c9_rows (by decide)
  refine ⟨by decide, ?_, h.2.1⟩
  rw [h.1]
  decide

end Backtest
